import Mathlib

/-!
# Shallow embedding of the `embedded-eventloop` crate

This file embeds the data structures and operations of the heapless event-loop
library (type-erased boxes in `boxes.rs`, bounded containers in
`collections.rs`, and the event loop in `eventloop.rs`) and proves the stated
properties about them.

Modelling conventions:
* A Rust type is represented by a `Ty`: its `TypeId` (a `Nat` tag, compared
  only for equality) and its `mem::size_of` in bytes.
* A typed Rust value is a `Value`: its `Ty` together with the list of bytes of
  its in-memory representation.  A value is well formed (`Value.WF`) when it
  has exactly `ty.size` bytes; all values produced by the Rust compiler are.
* Byte buffers (`[u8; SIZE]`) are lists of `Nat` of length `SIZE`.
* `&mut self` methods become explicit state passing: a method returning
  `Result<(), T>` on a mutated receiver becomes a function returning the new
  state paired with `Option T` (`none` for `Ok(())`, `some v` for `Err(v)`,
  in which case the state is returned unchanged, as the source mutates
  nothing on the error path).
* A Rust panic (out-of-bounds indexing, `expect`, `unreachable!`) is modelled
  by an outer `Option` with `none` meaning "panics", on the functions where a
  panic path is syntactically present and reachable from the claims'
  configurations.
-/

/-- A Rust type as far as the box machinery observes it: its process-wide
`TypeId` (compared only for equality) and its `mem::size_of`. -/
structure Ty where
  tag : Nat
  size : Nat
deriving DecidableEq, Repr

/-- A typed Rust value: its type together with the bytes of its in-memory
representation. -/
structure Value where
  ty : Ty
  bytes : List Nat
deriving DecidableEq, Repr

/-- A value as laid out by the compiler has exactly `size_of` bytes. -/
def Value.WF (v : Value) : Prop := v.bytes.length = v.ty.size

instance (v : Value) : Decidable v.WF := by
  unfold Value.WF; infer_instance

/-- `value_into_bytes` (boxes.rs): copies the `size_of::<T>()` bytes of the
value into a zeroed `SIZE`-byte buffer and forgets the original, returning the
`TypeId` and the buffer.  The source's `assert!(size_of::<T>() <= SIZE)` is
guaranteed by the size check both callers (`Box::new`, `CopyBox::new`) perform
immediately before, so it is a precondition here rather than a panic channel. -/
def value_into_bytes (S : Nat) (v : Value) : Nat × List Nat :=
  (v.ty.tag, v.bytes.take v.ty.size ++ List.replicate (S - v.ty.size) 0)

/-- `bytes_into_value` (boxes.rs): reinterprets the first `size_of::<T>()`
bytes of the buffer as a value of type `T`.  The source's
`assert_eq!(type_id, TypeId::of::<T>())` is guaranteed by the tag check both
callers (`Box::into_inner`, `CopyBox::inner`) perform immediately before, and
by `drop_impl::<T>` being installed only for the boxed type itself, so it is a
precondition here rather than a panic channel. -/
def bytes_into_value (T : Ty) (bytes : List Nat) : Value :=
  { ty := T, bytes := bytes.take T.size }

/-- `Box<SIZE>` (boxes.rs): type tag, `SIZE` opaque bytes, and an optional
destructor.  The stored destructor function pointer `drop_impl::<T>` is
determined by the type `T` it was instantiated at, so it is modelled by that
`Ty` (`none` models a cleared destructor slot). -/
structure SBox (S : Nat) where
  type_id : Nat
  bytes : List Nat
  drop : Option Ty
deriving DecidableEq, Repr

namespace SBox

/-- `Box::new` (boxes.rs): fails with `Err(value)` if the value is larger than
`SIZE`, otherwise stores the bytes, the tag and the destructor for `T`. -/
def new (S : Nat) (v : Value) : Except Value (SBox S) :=
  if v.ty.size > S then .error v
  else
    let tb := value_into_bytes S v
    .ok { type_id := tb.1, bytes := tb.2, drop := some v.ty }

/-- `Box::inner_type_id` (boxes.rs). -/
def inner_type_id (b : SBox S) : Nat := b.type_id

/-- `Box::into_inner::<T>` (boxes.rs): fails with `Err(self)` when the stored
tag is not `T`'s; otherwise clears the destructor slot and recovers the value.
On success the pair holds the recovered value and the consumed box as it is
when Rust drops it at the end of `into_inner` (destructor slot cleared). -/
def into_inner (T : Ty) (b : SBox S) : Except (SBox S) (Value × SBox S) :=
  if T.tag ≠ b.type_id then .error b
  else .ok (bytes_into_value T b.bytes, { b with drop := none })

/-- `impl Drop for Box` (boxes.rs) takes the destructor slot and, when it is
occupied, invokes it once.  This counts the destructor invocations performed
when the box goes out of scope. -/
def dropCalls (b : SBox S) : Nat :=
  match b.drop with
  | some _ => 1
  | none => 0

/-- The value destroyed by `impl Drop for Box` when it runs the stored
destructor `drop_impl::<T>` (which recovers the value and drops it). -/
def droppedValue (b : SBox S) : Option Value :=
  match b.drop with
  | some T => some (bytes_into_value T b.bytes)
  | none => none

end SBox

/-- `CopyBox<SIZE>` (boxes.rs): type tag and `SIZE` opaque bytes, no
destructor slot. -/
structure CopyBox (S : Nat) where
  type_id : Nat
  bytes : List Nat
deriving DecidableEq, Repr

namespace CopyBox

/-- `CopyBox::new` (boxes.rs): returns `None` if the value is larger than
`SIZE`, otherwise stores the bytes and the tag. -/
def new (S : Nat) (v : Value) : Option (CopyBox S) :=
  if v.ty.size > S then none
  else
    let tb := value_into_bytes S v
    some { type_id := tb.1, bytes := tb.2 }

/-- `CopyBox::inner_type_id` (boxes.rs). -/
def inner_type_id (c : CopyBox S) : Nat := c.type_id

/-- `CopyBox::inner::<T>` (boxes.rs): returns `None` when the stored tag is
not `T`'s, otherwise recovers a copy of the value. -/
def inner (T : Ty) (c : CopyBox S) : Option Value :=
  if T.tag ≠ c.type_id then none
  else some (bytes_into_value T c.bytes)

end CopyBox

/-- `Stack<T, SIZE>` (collections.rs): a push-only bounded list backed by an
array `[Option<T>; SIZE]` plus the number of occupied slots. -/
structure Stack (T : Type) (S : Nat) where
  elements : List (Option T)
  len : Nat
deriving DecidableEq, Repr

namespace Stack

/-- `Stack::new` (collections.rs): all slots `None`, length `0`. -/
def new (T : Type) (S : Nat) : Stack T S :=
  { elements := List.replicate S none, len := 0 }

/-- `Stack::push` (collections.rs): fails with `Err(value)` when `len == SIZE`,
otherwise writes the value into slot `len` and increments `len`.  The result is
the new state paired with `none` for `Ok(())` or `some v` for `Err(v)`; on the
error path the source mutates nothing, so the state is returned unchanged.
The slot write `elements[len]` is guarded by the `len == SIZE` check. -/
def push (s : Stack T S) (v : T) : Stack T S × Option T :=
  if s.len = S then (s, some v)
  else ({ elements := s.elements.set s.len (some v), len := s.len + 1 }, none)

/-- `impl IntoIterator for Stack` (collections.rs): iterating the array of
options and flattening, i.e. the occupied slots in array order. -/
def toList (s : Stack T S) : List T :=
  s.elements.filterMap id

/-- The refinement relation: `s` is the push-only list holding exactly the
elements of `l` in insertion order. -/
@[reducible] def Represents (s : Stack T S) (l : List T) : Prop :=
  s.elements = l.map some ++ List.replicate (S - l.length) none ∧
  s.len = l.length ∧ l.length ≤ S

end Stack

/-- `RingBuf<T, SIZE>` (collections.rs): a circular queue backed by an array
`[Option<T>; SIZE]` with a write cursor `head` and a read cursor `tail`. -/
structure RingBuf (T : Type) (S : Nat) where
  buf : List (Option T)
  head : Nat
  tail : Nat
deriving DecidableEq, Repr

namespace RingBuf

/-- `RingBuf::new` (collections.rs): all slots `None`, both cursors `0`. -/
def new (T : Type) (S : Nat) : RingBuf T S :=
  { buf := List.replicate S none, head := 0, tail := 0 }

/-- `RingBuf::push` (collections.rs): reads the slot at `head` (the outer
`Option` is the panic channel: `none` when `self.buf[self.head]` is out of
bounds, which happens exactly when `head` is not an index of the backing
array, e.g. for `SIZE = 0`).  If the slot is occupied the queue is full and
`Err(element)` is returned with the state unchanged; otherwise the element is
stored and `head` advances modulo `SIZE`. -/
def push (r : RingBuf T S) (v : T) : Option (RingBuf T S × Option T) :=
  match r.buf[r.head]? with
  | none => none
  | some slot =>
    if slot.isSome then some (r, some v)
    else some ({ buf := r.buf.set r.head (some v), head := (r.head + 1) % S, tail := r.tail }, none)

/-- `RingBuf::pop` (collections.rs): takes the slot at `tail` (the outer
`Option` is the panic channel for an out-of-bounds `self.buf[self.tail]`).
An empty slot means the queue is empty (`?` returns `None`, nothing changes);
otherwise the element is removed and `tail` advances modulo `SIZE`. -/
def pop (r : RingBuf T S) : Option (RingBuf T S × Option T) :=
  match r.buf[r.tail]? with
  | none => none
  | some none => some (r, none)
  | some (some x) =>
    some ({ buf := r.buf.set r.tail none, head := r.head, tail := (r.tail + 1) % S }, some x)

/-- The refinement relation: `r` is the circular-queue state holding exactly
the elements of `l`, oldest first, starting at the read cursor.  Implies
`0 < S` (via `tail < S`). -/
@[reducible] def Represents (r : RingBuf T S) (l : List T) : Prop :=
  r.buf.length = S ∧ r.tail < S ∧ r.head = (r.tail + l.length) % S ∧ l.length ≤ S ∧
  (∀ i, i < l.length → r.buf[(r.tail + i) % S]? = some (l[i]?)) ∧
  (∀ i, i < S → l.length ≤ i → r.buf[(r.tail + i) % S]? = some none)

end RingBuf

/-! ## The event loop (eventloop.rs)

The `ThreadSafeCell` around the backlog and the registry only provides scoped
exclusive access via the external critical-section primitive; in this
sequential embedding `cell.scope(f)` is simply `f` applied to the wrapped
state, so the cells are transparent.  The two external wake/sleep primitives
(`_runtime_sendevent`, `_runtime_waitforevent`) have no observable effect on
the loop's state and are recorded only through which code path ran. -/

/-- `FPTR_SIZE` (eventloop.rs): `mem::size_of::<fn()>()`, 8 on the 64-bit
targets the tests run on (every Rust function-pointer type has this size). -/
def FPTR_SIZE : Nat := 8

/-- The ambient facts the Rust compiler provides about function-pointer types,
which the embedding cannot compute from bytes: for each event type `T`,
`fnTy T` is the type `fn(T) -> Option<T>`, and `sem f arg` is the result of
calling the function a value `f` of such a type points to on `arg`
(`none` models the callback returning `None`). -/
structure Runtime where
  fnTy : Ty → Ty
  sem : Value → Value → Option Value

/-- `EventListener` (eventloop.rs): the type ID, the boxed callback, and the
type-specific caller `EventLoop::caller::<T>`, which is determined by the `T`
it was instantiated at and is therefore modelled by that `Ty`. -/
structure EventListener (S : Nat) where
  type_id : Nat
  callback_box : CopyBox FPTR_SIZE
  caller_ty : Ty
deriving DecidableEq, Repr

namespace EventLoop

/-- `EventLoop::caller::<T>` (eventloop.rs): unboxes the event as `T`
(`expect`), unboxes the callback as `fn(T) -> Option<T>` (`expect`), calls the
callback, and re-boxes a returned continuation (`unreachable!` on failure).
The outer `Option` is the panic channel for those three failure branches.
Alongside the returned `Option<Box>` the model records the invocation the
caller performs — the callback box invoked and the event value fed to it — so
dispatch-order properties can be stated. -/
def caller (rt : Runtime) (S : Nat) (T : Ty) (boxed_event : SBox S)
    (callback : CopyBox FPTR_SIZE) :
    Option (Option (SBox S) × List (CopyBox FPTR_SIZE × Value)) :=
  match boxed_event.into_inner T with
  | .error _ => none
  | .ok (event, _) =>
    match callback.inner (rt.fnTy T) with
    | none => none
    | some f =>
      match rt.sem f event with
      | none => some (none, [(callback, event)])
      | some event' =>
        match SBox.new S event' with
        | .error _ => none
        | .ok b => some (some b, [(callback, event)])

/-- `EventLoop::listen::<T>` (eventloop.rs): copy-boxes the callback
(`expect("cannot box function pointer")` — outer `Option` is that panic
channel), builds the listener record with `T`'s tag and the `T`-specific
caller, and pushes it onto the registry; a full registry returns
`Err(callback)` (`some fnval` in the second component) with the registry
unchanged. -/
def listen (S L : Nat) (T : Ty) (fnval : Value)
    (listeners : Stack (EventListener S) L) :
    Option (Stack (EventListener S) L × Option Value) :=
  match CopyBox.new FPTR_SIZE fnval with
  | none => none
  | some callback_box =>
    let listener : EventListener S :=
      { type_id := T.tag, callback_box := callback_box, caller_ty := T }
    match listeners.push listener with
    | (st, none) => some (st, none)
    | (st, some _) => some (st, some fnval)

/-- `EventLoop::send::<T>` (eventloop.rs): boxes the event (`Box::new(event)?`
propagates `Err(event)`), pushes the box into the backlog, and on a full
backlog unboxes it again (`expect("failed to unwrap event")`) and returns the
original event; on success the external raise-event primitive is invoked and
`Ok(())` is returned.  Result: `none` for a panic (the `expect`, or the
ring-buffer indexing panic), otherwise the new backlog with `none` for
`Ok(())` (the path that raises the hardware event) or `some v` for `Err(v)`. -/
def send (S B : Nat) (backlog : RingBuf (SBox S) B) (v : Value) :
    Option (RingBuf (SBox S) B × Option Value) :=
  match SBox.new S v with
  | .error rejected => some (backlog, some rejected)
  | .ok event_box =>
    match backlog.push event_box with
    | none => none
    | some (backlog', some rejected_box) =>
      match rejected_box.into_inner v.ty with
      | .error _ => none
      | .ok (event, _) => some (backlog', some event)
    | some (backlog', none) => some (backlog', none)

/-- The listener scan of `EventLoop::enter` (eventloop.rs): the
`while let (Some(event_box), Some(listener)) = (maybe_event_box.take(), listeners.next())`
loop.  Each iteration takes the current event box out of `maybe_event_box`;
when the listener's tag matches, the caller runs and its result becomes the
new `maybe_event_box`; when it does not match, nothing restores
`maybe_event_box`, the taken box is dropped at the end of the iteration, and
the next iteration's pattern fails, ending the scan.  Returns the value of
`maybe_event_box` when the loop exits (which the outer loop then discards)
and the concatenated invocation records of the callers that ran; `none` is a
panic propagated from a caller. -/
def dispatchScan (rt : Runtime) (S : Nat) (m : Option (SBox S)) :
    List (EventListener S) →
    Option (Option (SBox S) × List (CopyBox FPTR_SIZE × Value))
  | [] => some (m, [])
  | l :: rest =>
    match m with
    | none => some (none, [])
    | some event_box =>
      if l.type_id = event_box.inner_type_id then
        match caller rt S l.caller_ty event_box l.callback_box with
        | none => none
        | some (m', log) =>
          match dispatchScan rt S m' rest with
          | none => none
          | some (mfin, logs) => some (mfin, log ++ logs)
      else
        some (none, [])

/-- One iteration of the infinite loop in `EventLoop::enter` (eventloop.rs):
pop one event from the backlog under its cell; when the backlog is empty, wait
for a hardware event and restart (no dispatch, empty invocation log);
otherwise scan a snapshot of the registry with `dispatchScan`.  Returns the
backlog after the iteration and the invocations performed; `none` is a panic
(ring-buffer indexing or a caller panic). -/
def enterStep (rt : Runtime) (S B L : Nat) (backlog : RingBuf (SBox S) B)
    (listeners : Stack (EventListener S) L) :
    Option (RingBuf (SBox S) B × List (CopyBox FPTR_SIZE × Value)) :=
  match backlog.pop with
  | none => none
  | some (backlog', none) => some (backlog', [])
  | some (backlog', some event_box) =>
    match dispatchScan rt S (some event_box) listeners.toList with
    | none => none
    | some (_, log) => some (backlog', log)

end EventLoop

/-! ## Theorems about the type-erased boxes -/

/-- Helper: a successfully created box carries the original tag and bytes and
unboxes at the value's own type back to an equal value, clearing the
destructor slot. -/
theorem SBox.into_inner_new {S : Nat} {v : Value} {b : SBox S} (hwf : v.WF)
    (h : SBox.new S v = .ok b) :
    b.into_inner v.ty = .ok (v, { b with drop := none }) := by
  have h1 : v.bytes.take v.ty.size = v.bytes := by rw [← hwf]; simp
  unfold SBox.new value_into_bytes at h
  split at h
  · exact absurd h (by simp)
  · simp only [Except.ok.injEq] at h
    subst h
    unfold SBox.into_inner bytes_into_value
    rw [if_neg (by simp)]
    have h2 : (v.bytes.take v.ty.size ++ List.replicate (S - v.ty.size) 0).take v.ty.size
        = v.bytes := by
      rw [h1, ← hwf]
      simp
    simp only [h2, Except.ok.injEq, Prod.mk.injEq]

/-- C2: for every well-formed value `v` whose size is at most the box capacity
`S`, `Box::new(v)` succeeds and `into_inner` at `v`'s own type succeeds and
returns a value equal to `v` (create-then-extract round-trip). -/
theorem box_create_extract_roundtrip (S : Nat) (v : Value) (hwf : v.WF)
    (hs : v.ty.size ≤ S) :
    ∃ b b', SBox.new S v = .ok b ∧ b.into_inner v.ty = .ok (v, b') := by
  have hnew : SBox.new S v =
      .ok ⟨v.ty.tag, v.bytes.take v.ty.size ++ List.replicate (S - v.ty.size) 0, some v.ty⟩ := by
    unfold SBox.new value_into_bytes
    rw [if_neg (by omega)]
  exact ⟨_, _, hnew, SBox.into_inner_new hwf hnew⟩

theorem box_create_extract_roundtrip_witness :
    ∃ b b', SBox.new 2 ⟨⟨5, 1⟩, [9]⟩ = .ok b ∧
      b.into_inner ⟨5, 1⟩ = .ok (⟨⟨5, 1⟩, [9]⟩, b') :=
  box_create_extract_roundtrip 2 ⟨⟨5, 1⟩, [9]⟩ (by decide) (by decide)

/-- C3: a box produced by `Box::new` carries a destructor, so dropping it
unconsumed invokes the destructor exactly once; after any successful
`into_inner` the consumed box's destructor slot is cleared, so dropping it
invokes the destructor zero times.  The held resource is therefore released
exactly once in every lifecycle. -/
theorem box_unconsumed_drop_exactly_once (S : Nat) (v : Value) (b : SBox S)
    (h : SBox.new S v = .ok b) :
    b.dropCalls = 1 ∧
      ∀ T w b', b.into_inner T = .ok (w, b') → b'.dropCalls = 0 := by
  constructor
  · unfold SBox.new at h
    split at h
    · exact absurd h (by simp)
    · simp only [Except.ok.injEq] at h
      rw [← h]
      rfl
  · intro T w b' h2
    unfold SBox.into_inner at h2
    split at h2
    · exact absurd h2 (by simp)
    · simp only [Except.ok.injEq, Prod.mk.injEq] at h2
      rw [← h2.2]
      rfl

theorem box_unconsumed_drop_exactly_once_witness :
    SBox.dropCalls (S := 1) ⟨5, [9], some ⟨5, 1⟩⟩ = 1 ∧
      ∀ T w b', SBox.into_inner T (⟨5, [9], some ⟨5, 1⟩⟩ : SBox 1) = .ok (w, b') →
        b'.dropCalls = 0 :=
  box_unconsumed_drop_exactly_once 1 ⟨⟨5, 1⟩, [9]⟩ _ rfl

/-- C4: `into_inner` at a type whose tag differs from the stored one fails
with `Err(self)`, the box being returned entirely intact (same bytes, same
tag, same destructor slot), so the caller can retry and a later matching
extract or drop still behaves correctly. -/
theorem box_extract_mismatch_intact (S : Nat) (b : SBox S) (T : Ty)
    (h : T.tag ≠ b.type_id) :
    b.into_inner T = .error b := by
  unfold SBox.into_inner
  rw [if_pos h]

theorem box_extract_mismatch_intact_witness :
    SBox.into_inner ⟨4, 1⟩ (⟨5, [9], some ⟨5, 1⟩⟩ : SBox 1) =
      .error ⟨5, [9], some ⟨5, 1⟩⟩ :=
  box_extract_mismatch_intact 1 ⟨5, [9], some ⟨5, 1⟩⟩ ⟨4, 1⟩ (by decide)

/-- C7 (amended): for both variants, creation succeeds if and only if the
value's size is at most the capacity `S`; on failure the owning `Box::new`
returns the original value unchanged (`Err(value)`), while `CopyBox::new`
signals failure with `None` and returns no value. -/
theorem box_create_size_iff (S : Nat) (v : Value) :
    ((SBox.new S v).isOk ↔ v.ty.size ≤ S) ∧
    ((CopyBox.new S v).isSome ↔ v.ty.size ≤ S) ∧
    (S < v.ty.size → SBox.new S v = .error v) := by
  unfold SBox.new CopyBox.new
  by_cases h : v.ty.size > S
  · rw [if_pos h, if_pos h]
    simp [Except.isOk, Except.toBool]
    omega
  · rw [if_neg h, if_neg h]
    simp [Except.isOk, Except.toBool]
    omega

theorem box_create_size_iff_witness :
    ((SBox.new 1 ⟨⟨0, 2⟩, [7, 7]⟩).isOk ↔ (2 : Nat) ≤ 1) ∧
    ((CopyBox.new 1 ⟨⟨0, 2⟩, [7, 7]⟩).isSome ↔ (2 : Nat) ≤ 1) ∧
    ((1 : Nat) < 2 → SBox.new 1 ⟨⟨0, 2⟩, [7, 7]⟩ = .error ⟨⟨0, 2⟩, [7, 7]⟩) :=
  box_create_size_iff 1 ⟨⟨0, 2⟩, [7, 7]⟩

/-- C7 (counterexample to the claim as stated): the copy-box constructor's
failure result is `none` for every oversized value, so no reading of the
failure result can recover the original value — two distinct oversized values
produce the same failure result, hence the failure does not return the
original value to the caller. -/
theorem copybox_failure_counterexample :
    CopyBox.new 1 ⟨⟨0, 2⟩, [0, 0]⟩ = none ∧
    ¬ ∃ f : Option (CopyBox 1) → Value,
        ∀ v : Value, 1 < v.ty.size → f (CopyBox.new 1 v) = v := by
  refine ⟨rfl, ?_⟩
  rintro ⟨f, hf⟩
  have h1 := hf ⟨⟨0, 2⟩, [0, 0]⟩ (by decide)
  have h2 := hf ⟨⟨0, 2⟩, [1, 1]⟩ (by decide)
  rw [show CopyBox.new 1 ⟨⟨0, 2⟩, [0, 0]⟩ = none from rfl] at h1
  rw [show CopyBox.new 1 ⟨⟨0, 2⟩, [1, 1]⟩ = none from rfl] at h2
  rw [h1] at h2
  exact absurd h2 (by decide)

/-! ## Theorems about the bounded containers -/

/-- C8: the push-only list refines a bounded insertion-order list of capacity
exactly `S`: the empty list represents `[]`; while fewer than `S` elements are
held a push succeeds (`Ok(())`) and appends; once `S` elements are held a push
fails returning the rejected element with the list unchanged; iteration yields
exactly the pushed elements in push order. -/
theorem stack_push_only_list (T : Type) (S : Nat) (s : Stack T S) (l : List T)
    (h : s.Represents l) (v : T) :
    (Stack.new T S).Represents ([] : List T) ∧
    (l.length = S → s.push v = (s, some v)) ∧
    (l.length < S →
      (s.push v).1.Represents (l ++ [v]) ∧ (s.push v).2 = none) ∧
    s.toList = l := by
  obtain ⟨he, hl, hs⟩ := h
  refine ⟨⟨by simp [Stack.new], by simp [Stack.new], by simp⟩, ?_, ?_, ?_⟩
  · intro hfull
    unfold Stack.push
    rw [if_pos (by omega)]
  · intro hlt
    unfold Stack.push
    rw [if_neg (by omega)]
    refine ⟨⟨?_, by simp [hl], by simp; omega⟩, rfl⟩
    have hrep : List.replicate (S - l.length) (none : Option T) =
        none :: List.replicate (S - l.length - 1) none := by
      have h9 : S - l.length = (S - l.length - 1) + 1 := by omega
      nth_rewrite 1 [h9]
      rw [List.replicate_succ]
    simp only [he, hl]
    rw [show l.length = (l.map some).length by simp, List.set_append]
    simp [hrep]
    omega
  · unfold Stack.toList
    rw [he]
    simp

theorem stack_push_only_list_witness :
    (Stack.new Nat 2).Represents ([] : List Nat) ∧
    (([5].length = 2) → Stack.push (⟨[some 5, none], 1⟩ : Stack Nat 2) 9 =
      (⟨[some 5, none], 1⟩, some 9)) ∧
    (([5].length < 2) →
      (Stack.push (⟨[some 5, none], 1⟩ : Stack Nat 2) 9).1.Represents [5, 9] ∧
      (Stack.push (⟨[some 5, none], 1⟩ : Stack Nat 2) 9).2 = none) ∧
    Stack.toList (⟨[some 5, none], 1⟩ : Stack Nat 2) = [5] :=
  stack_push_only_list Nat 2 ⟨[some 5, none], 1⟩ [5] (by decide) 9

/-- Helper: shifting by `t` and reducing mod `S` is injective below `S`. -/
theorem mod_shift_inj {S : Nat} (t : Nat) {i j : Nat} (hi : i < S) (hj : j < S)
    (h : (t + i) % S = (t + j) % S) : i = j := by
  have h2 : i % S = j % S := Nat.ModEq.add_left_cancel' t h
  rwa [Nat.mod_eq_of_lt hi, Nat.mod_eq_of_lt hj] at h2

/-- Helper: a fresh `RingBuf` represents the empty queue (for positive
capacity). -/
theorem RingBuf.new_represents (T : Type) (S : Nat) (hS : 0 < S) :
    (RingBuf.new T S).Represents ([] : List T) := by
  refine ⟨by simp [RingBuf.new], hS, by simp [RingBuf.new], by simp, by simp, ?_⟩
  intro i hi _
  have hm : i % S < S := Nat.mod_lt _ hS
  simp [RingBuf.new, List.getElem?_replicate, hm]

/-- Helper: `push` on a full queue fails with the rejected element and changes
nothing. -/
theorem RingBuf.push_full {T : Type} {S : Nat} {r : RingBuf T S} {l : List T}
    (h : r.Represents l) (hfull0 : l.length = S) (v : T) :
    r.push v = some (r, some v) := by
  obtain ⟨hlen, htail, hhead, hsize, hfull, hempty⟩ := h
  have hS : 0 < S := by omega
  have hh : r.head = r.tail := by
    rw [hhead, hfull0, Nat.add_mod_right, Nat.mod_eq_of_lt htail]
  have h0 : (0 : Nat) < l.length := by omega
  have hslot := hfull 0 h0
  rw [Nat.add_zero, Nat.mod_eq_of_lt htail] at hslot
  obtain ⟨x, hx⟩ : ∃ x, l[0]? = some x := by
    cases l with
    | nil => simp at h0
    | cons a t => exact ⟨a, by simp⟩
  unfold RingBuf.push
  rw [hh, hslot, hx]
  rfl

/-- Helper: `push` on a non-full queue stores the element at the write cursor,
advances the cursor modulo `S`, and represents the queue with the element
appended. -/
theorem RingBuf.push_not_full {T : Type} {S : Nat} {r : RingBuf T S} {l : List T}
    (h : r.Represents l) (hlt : l.length < S) (v : T) :
    r.push v = some (⟨r.buf.set r.head (some v), (r.head + 1) % S, r.tail⟩, none) ∧
    (⟨r.buf.set r.head (some v), (r.head + 1) % S, r.tail⟩ : RingBuf T S).Represents (l ++ [v]) := by
  obtain ⟨hlen, htail, hhead, hsize, hfull, hempty⟩ := h
  have hS : 0 < S := by omega
  have hslot := hempty l.length (by omega) (Nat.le_refl _)
  rw [← hhead] at hslot
  have hheadlt : r.head < S := by rw [hhead]; exact Nat.mod_lt _ hS
  constructor
  · unfold RingBuf.push
    rw [hslot]
    rfl
  · refine ⟨by simp [hlen], htail, ?_, by simp; omega, ?_, ?_⟩
    · show (r.head + 1) % S = (r.tail + (l ++ [v]).length) % S
      rw [hhead, Nat.mod_add_mod]
      simp [Nat.add_assoc]
    · intro i hi
      simp only [List.length_append, List.length_cons, List.length_nil] at hi
      rcases Nat.lt_or_ge i l.length with hcase | hcase
      · have hne : r.head ≠ (r.tail + i) % S := by
          rw [hhead]
          intro hcon
          have hij := mod_shift_inj r.tail hlt (by omega : i < S) hcon
          omega
        show (r.buf.set r.head (some v))[(r.tail + i) % S]? = some ((l ++ [v])[i]?)
        rw [List.getElem?_set_ne hne, hfull i hcase, List.getElem?_append_left hcase]
      · have hieq : i = l.length := by omega
        subst hieq
        show (r.buf.set r.head (some v))[(r.tail + l.length) % S]? = some ((l ++ [v])[l.length]?)
        rw [← hhead, List.getElem?_set_self',
          List.getElem?_eq_getElem (by omega : r.head < r.buf.length),
          List.getElem?_concat_length]
        rfl
    · intro i hiS hge
      simp only [List.length_append, List.length_cons, List.length_nil] at hge
      have hne : r.head ≠ (r.tail + i) % S := by
        rw [hhead]
        intro hcon
        have hij := mod_shift_inj r.tail (by omega : l.length < S) hiS hcon
        omega
      show (r.buf.set r.head (some v))[(r.tail + i) % S]? = some none
      rw [List.getElem?_set_ne hne]
      exact hempty i hiS (by omega)

/-- Helper: `pop` on an empty queue signals emptiness and changes nothing. -/
theorem RingBuf.pop_nil {T : Type} {S : Nat} {r : RingBuf T S}
    (h : r.Represents ([] : List T)) : r.pop = some (r, none) := by
  obtain ⟨hlen, htail, hhead, hsize, hfull, hempty⟩ := h
  have hS : 0 < S := by omega
  have hslot := hempty 0 hS (by simp)
  rw [Nat.add_zero, Nat.mod_eq_of_lt htail] at hslot
  unfold RingBuf.pop
  rw [hslot]

/-- Helper: `pop` on a non-empty queue removes and returns the element at the
read cursor (the oldest one), advancing the cursor modulo `S`. -/
theorem RingBuf.pop_cons {T : Type} {S : Nat} {r : RingBuf T S} {x : T} {l' : List T}
    (h : r.Represents (x :: l')) :
    r.pop = some (⟨r.buf.set r.tail none, r.head, (r.tail + 1) % S⟩, some x) ∧
    (⟨r.buf.set r.tail none, r.head, (r.tail + 1) % S⟩ : RingBuf T S).Represents l' := by
  obtain ⟨hlen, htail, hhead, hsize, hfull, hempty⟩ := h
  have hS : 0 < S := by omega
  have hsize' : l'.length + 1 ≤ S := by simpa using hsize
  have hslot := hfull 0 (by simp)
  rw [Nat.add_zero, Nat.mod_eq_of_lt htail] at hslot
  simp only [List.getElem?_cons_zero] at hslot
  constructor
  · unfold RingBuf.pop
    rw [hslot]
  · have htail' : (r.tail + 1) % S < S := Nat.mod_lt _ hS
    refine ⟨by simp [hlen], htail', ?_, by omega, ?_, ?_⟩
    · show r.head = ((r.tail + 1) % S + l'.length) % S
      rw [hhead, Nat.mod_add_mod]
      congr 1
      simp [List.length_cons]
      omega
    · intro i hi
      show (r.buf.set r.tail none)[((r.tail + 1) % S + i) % S]? = some (l'[i]?)
      rw [Nat.mod_add_mod, show r.tail + 1 + i = r.tail + (1 + i) by omega]
      have h1i : 1 + i < S := by omega
      have hne : r.tail ≠ (r.tail + (1 + i)) % S := by
        intro hcon
        have h0 : (r.tail + 0) % S = (r.tail + (1 + i)) % S := by
          rw [Nat.add_zero, Nat.mod_eq_of_lt htail]
          exact hcon
        have hij := mod_shift_inj r.tail hS h1i h0
        omega
      rw [List.getElem?_set_ne hne, hfull (1 + i) (by simp; omega)]
      congr 1
      rw [show 1 + i = i + 1 by omega, List.getElem?_cons_succ]
    · intro i hiS hge
      show (r.buf.set r.tail none)[((r.tail + 1) % S + i) % S]? = some none
      rw [Nat.mod_add_mod, show r.tail + 1 + i = r.tail + (1 + i) by omega]
      rcases Nat.lt_or_ge (1 + i) S with hc | hc
      · have hne : r.tail ≠ (r.tail + (1 + i)) % S := by
          intro hcon
          have h0 : (r.tail + 0) % S = (r.tail + (1 + i)) % S := by
            rw [Nat.add_zero, Nat.mod_eq_of_lt htail]
            exact hcon
          have hij := mod_shift_inj r.tail hS hc h0
          omega
        rw [List.getElem?_set_ne hne]
        exact hempty (1 + i) hc (by simp; omega)
      · have hSeq : 1 + i = S := by omega
        rw [hSeq, Nat.add_mod_right, Nat.mod_eq_of_lt htail,
          List.getElem?_set_self', List.getElem?_eq_getElem (by omega : r.tail < r.buf.length)]
        rfl

/-- C6: the circular queue refines a bounded strict-FIFO queue of usable
capacity exactly `S`: the empty queue represents `[]`; a push on a queue
holding fewer than `S` elements succeeds and appends; a push on a queue
holding `S` elements fails returning the rejected element with the queue
unchanged; a pop on an empty queue signals emptiness; a pop on a non-empty
queue removes and returns the oldest element; both cursors advance modulo
`S`. -/
theorem ringbuf_fifo (T : Type) (S : Nat) (r : RingBuf T S) (l : List T)
    (h : r.Represents l) (v : T) :
    (0 < S → (RingBuf.new T S).Represents ([] : List T)) ∧
    (l.length = S → r.push v = some (r, some v)) ∧
    (l.length < S → ∃ r', r.push v = some (r', none) ∧ r'.Represents (l ++ [v])) ∧
    (l = [] → r.pop = some (r, none)) ∧
    (∀ x l', l = x :: l' → ∃ r', r.pop = some (r', some x) ∧ r'.Represents l') := by
  refine ⟨fun hS => RingBuf.new_represents T S hS,
    fun hfull0 => RingBuf.push_full h hfull0 v,
    fun hlt => ⟨_, (RingBuf.push_not_full h hlt v).1, (RingBuf.push_not_full h hlt v).2⟩,
    fun hnil => ?_, fun x l' hcons => ?_⟩
  · subst hnil
    exact RingBuf.pop_nil h
  · subst hcons
    exact ⟨_, (RingBuf.pop_cons h).1, (RingBuf.pop_cons h).2⟩

theorem ringbuf_fifo_witness :
    (0 < 2 → (RingBuf.new Nat 2).Represents ([] : List Nat)) ∧
    (([5] : List Nat).length = 2 →
      RingBuf.push (⟨[some 5, none], 1, 0⟩ : RingBuf Nat 2) 7 =
        some (⟨[some 5, none], 1, 0⟩, some 7)) ∧
    (([5] : List Nat).length < 2 →
      ∃ r', RingBuf.push (⟨[some 5, none], 1, 0⟩ : RingBuf Nat 2) 7 =
        some (r', none) ∧ r'.Represents ([5] ++ [7])) ∧
    (([5] : List Nat) = [] →
      RingBuf.pop (⟨[some 5, none], 1, 0⟩ : RingBuf Nat 2) =
        some (⟨[some 5, none], 1, 0⟩, none)) ∧
    (∀ x l', ([5] : List Nat) = x :: l' →
      ∃ r', RingBuf.pop (⟨[some 5, none], 1, 0⟩ : RingBuf Nat 2) =
        some (r', some x) ∧ r'.Represents l') :=
  ringbuf_fifo Nat 2 ⟨[some 5, none], 1, 0⟩ [5] (by decide) 7

/-- C9: on every reachable state of a circular queue of capacity at least one
(`Represents` forces `0 < S`), `push` and `pop` are total — the indexing at
the cursors is in bounds, so neither panics; for the degenerate capacity
`S = 0`, which nothing excludes, `push` indexes slot 0 of the empty backing
array and panics (result `none`) instead of returning the rejected element. -/
theorem ringbuf_total_except_zero_capacity (T : Type) (S : Nat)
    (r : RingBuf T S) (l : List T) (h : r.Represents l) (v : T) :
    (r.push v).isSome ∧ r.pop.isSome ∧
    (∀ (U : Type) (w : U), (RingBuf.new U 0).push w = none) := by
  obtain ⟨hlen, htail, hhead, hsize, hfull, hempty⟩ := h
  have hS : 0 < S := by omega
  have hheadlt : r.head < r.buf.length := by
    rw [hlen, hhead]
    exact Nat.mod_lt _ hS
  have htaillt : r.tail < r.buf.length := by omega
  refine ⟨?_, ?_, ?_⟩
  · obtain ⟨s, hs⟩ : ∃ s, r.buf[r.head]? = some s :=
      ⟨_, List.getElem?_eq_getElem hheadlt⟩
    unfold RingBuf.push
    rw [hs]
    cases s <;> simp
  · obtain ⟨s, hs⟩ : ∃ s, r.buf[r.tail]? = some s :=
      ⟨_, List.getElem?_eq_getElem htaillt⟩
    unfold RingBuf.pop
    rw [hs]
    cases s <;> simp
  · intro U w
    rfl

theorem ringbuf_total_except_zero_capacity_witness :
    (RingBuf.push (⟨[some 5, none], 1, 0⟩ : RingBuf Nat 2) 7).isSome ∧
    (RingBuf.pop (⟨[some 5, none], 1, 0⟩ : RingBuf Nat 2)).isSome ∧
    (∀ (U : Type) (w : U), (RingBuf.new U 0).push w = none) :=
  ringbuf_total_except_zero_capacity Nat 2 ⟨[some 5, none], 1, 0⟩ [5] (by decide) 7

/-! ## Theorems about the event loop -/

/-- C5: `send` surfaces every capacity failure by returning the caller's
original event and never aborts on one: when the event is larger than the box
capacity, `Box::new` rejects it and `send` returns the original event with
the backlog unchanged; when the backlog (on a reachable state, holding `l`)
is full, the pushed box is rejected, unboxed again, and the original event is
returned with the backlog unchanged; otherwise the boxed event is enqueued,
the external raise-event primitive runs (the `none` outcome), and `Ok(())`
is returned. -/
theorem send_surfaces_capacity_failures (S B : Nat) (backlog : RingBuf (SBox S) B)
    (l : List (SBox S)) (hrep : backlog.Represents l) (v : Value) (hwf : v.WF) :
    (S < v.ty.size → EventLoop.send S B backlog v = some (backlog, some v)) ∧
    (v.ty.size ≤ S → l.length = B →
      EventLoop.send S B backlog v = some (backlog, some v)) ∧
    (v.ty.size ≤ S → l.length < B →
      ∃ backlog' b, SBox.new S v = .ok b ∧
        EventLoop.send S B backlog v = some (backlog', none) ∧
        backlog'.Represents (l ++ [b])) := by
  refine ⟨?_, ?_, ?_⟩
  · intro hbig
    have hnew : SBox.new S v = .error v := by
      unfold SBox.new
      rw [if_pos (by omega)]
    simp only [EventLoop.send, hnew]
  · intro hfit hfull
    have hnew : SBox.new S v =
        .ok ⟨v.ty.tag, v.bytes.take v.ty.size ++ List.replicate (S - v.ty.size) 0, some v.ty⟩ := by
      unfold SBox.new value_into_bytes
      rw [if_neg (by omega)]
    simp only [EventLoop.send, hnew, RingBuf.push_full hrep hfull,
      SBox.into_inner_new hwf hnew]
  · intro hfit hlt
    have hnew : SBox.new S v =
        .ok ⟨v.ty.tag, v.bytes.take v.ty.size ++ List.replicate (S - v.ty.size) 0, some v.ty⟩ := by
      unfold SBox.new value_into_bytes
      rw [if_neg (by omega)]
    refine ⟨_, _, hnew, ?_, (RingBuf.push_not_full hrep hlt _).2⟩
    simp only [EventLoop.send, hnew, (RingBuf.push_not_full hrep hlt _).1]

theorem send_surfaces_capacity_failures_witness :
    (1 < Ty.size ⟨0, 1⟩ →
      EventLoop.send 1 1 (⟨[none], 0, 0⟩ : RingBuf (SBox 1) 1) ⟨⟨0, 1⟩, [7]⟩ =
        some (⟨[none], 0, 0⟩, some ⟨⟨0, 1⟩, [7]⟩)) ∧
    (Ty.size ⟨0, 1⟩ ≤ 1 → ([] : List (SBox 1)).length = 1 →
      EventLoop.send 1 1 (⟨[none], 0, 0⟩ : RingBuf (SBox 1) 1) ⟨⟨0, 1⟩, [7]⟩ =
        some (⟨[none], 0, 0⟩, some ⟨⟨0, 1⟩, [7]⟩)) ∧
    (Ty.size ⟨0, 1⟩ ≤ 1 → ([] : List (SBox 1)).length < 1 →
      ∃ backlog' b, SBox.new 1 ⟨⟨0, 1⟩, [7]⟩ = .ok b ∧
        EventLoop.send 1 1 (⟨[none], 0, 0⟩ : RingBuf (SBox 1) 1) ⟨⟨0, 1⟩, [7]⟩ =
          some (backlog', none) ∧
        backlog'.Represents ([] ++ [b])) :=
  send_surfaces_capacity_failures 1 1 ⟨[none], 0, 0⟩ [] (by decide) ⟨⟨0, 1⟩, [7]⟩ (by decide)

/-- C10: the dispatch helper `caller` is total under its preconditions.  When
the event box was created from a well-formed event of the listener's type `T`
(which in particular fit into the box), and the callback box was created from
a well-formed function-pointer value of type `fn(T) -> Option<T>` (whose size
is exactly `FPTR_SIZE`), and the callback — per its Rust type — returns only
well-formed values of type `T`, then the event extraction, the callback
extraction and the re-boxing of a continuation all succeed, so `caller` never
reaches a panic branch; likewise `listen` always succeeds in boxing the
function pointer, on any registry state. -/
theorem caller_totality (rt : Runtime) (S : Nat) (T : Ty) (ev : Value)
    (boxed_event : SBox S) (f : Value) (cb : CopyBox FPTR_SIZE)
    (hevty : ev.ty = T) (hevwf : ev.WF) (hbox : SBox.new S ev = .ok boxed_event)
    (hfty : f.ty = rt.fnTy T) (hfwf : f.WF) (hfsz : (rt.fnTy T).size = FPTR_SIZE)
    (hcb : CopyBox.new FPTR_SIZE f = some cb)
    (hsem : ∀ x y, rt.sem f x = some y → y.ty = T ∧ y.WF) :
    (EventLoop.caller rt S T boxed_event cb).isSome ∧
    (∀ (L : Nat) (listeners : Stack (EventListener S) L),
      (EventLoop.listen S L T f listeners).isSome) := by
  subst hevty
  have hfit : ev.ty.size ≤ S := by
    unfold SBox.new at hbox
    split at hbox
    · exact absurd hbox (by simp)
    · omega
  have hinto := SBox.into_inner_new hevwf hbox
  have hinner : cb.inner (rt.fnTy ev.ty) = some f := by
    rw [← hfty]
    unfold CopyBox.new value_into_bytes at hcb
    split at hcb
    · exact absurd hcb (by simp)
    · simp only [Option.some.injEq] at hcb
      subst hcb
      unfold CopyBox.inner bytes_into_value
      rw [if_neg (by simp)]
      have hbytes : (f.bytes.take f.ty.size ++
          List.replicate (FPTR_SIZE - f.ty.size) 0).take f.ty.size = f.bytes := by
        rw [show f.bytes.take f.ty.size = f.bytes by rw [← hfwf]; simp, ← hfwf]
        simp
      simp only [hbytes]
  have hcopy : ∀ g : Value, g.ty = rt.fnTy ev.ty → ∃ c, CopyBox.new FPTR_SIZE g = some c := by
    intro g hg
    unfold CopyBox.new
    rw [if_neg (by rw [hg]; omega)]
    exact ⟨_, rfl⟩
  constructor
  · unfold EventLoop.caller
    simp only [hinto, hinner]
    cases hy : rt.sem f ev with
    | none => simp [hy]
    | some y =>
      obtain ⟨hyty, hywf⟩ := hsem ev y hy
      have hnew : SBox.new S y =
          .ok ⟨y.ty.tag, y.bytes.take y.ty.size ++ List.replicate (S - y.ty.size) 0,
            some y.ty⟩ := by
        unfold SBox.new value_into_bytes
        rw [if_neg (by rw [hyty]; omega)]
      simp [hy, hnew]
  · intro L listeners
    obtain ⟨c, hc⟩ := hcopy f hfty
    unfold EventLoop.listen
    rw [hc]
    dsimp only
    rcases hp : listeners.push
      { type_id := ev.ty.tag, callback_box := c, caller_ty := ev.ty } with ⟨st, o⟩
    cases o <;> simp

theorem caller_totality_witness :
    (EventLoop.caller ⟨fun t => ⟨100 + t.tag, 8⟩, fun _ _ => none⟩ 1 ⟨0, 1⟩
      ⟨0, [7], some ⟨0, 1⟩⟩ ⟨100, [1, 2, 3, 4, 5, 6, 7, 8]⟩).isSome ∧
    (∀ (L : Nat) (listeners : Stack (EventListener 1) L),
      (EventLoop.listen 1 L ⟨0, 1⟩ ⟨⟨100, 8⟩, [1, 2, 3, 4, 5, 6, 7, 8]⟩
        listeners).isSome) :=
  caller_totality ⟨fun t => ⟨100 + t.tag, 8⟩, fun _ _ => none⟩ 1 ⟨0, 1⟩
    ⟨⟨0, 1⟩, [7]⟩ ⟨0, [7], some ⟨0, 1⟩⟩ ⟨⟨100, 8⟩, [1, 2, 3, 4, 5, 6, 7, 8]⟩
    ⟨100, [1, 2, 3, 4, 5, 6, 7, 8]⟩ rfl (by decide) rfl rfl (by decide) (by decide)
    rfl (fun x y h => Option.noConfusion h)

/-- C1 (failing-input evaluation): register a listener for type `U` (tag 1),
then a listener `A` for type `T` (tag 0), and send an event `e : T`.  One
iteration of `enter` pops `e` but — because the `while let` took the event box
out of `maybe_event_box` and the mismatching first listener's branch never
restores it — the scan ends at the first non-matching record: the returned
invocation log is empty, so `A` is never invoked even though a `T`-event was
dispatched, and the event box is dropped.  (The backlog is empty afterwards,
equal to a fresh one.) -/
theorem dispatch_stops_at_first_mismatch :
    EventLoop.listen 1 2 ⟨1, 1⟩ ⟨⟨101, 8⟩, [1, 1, 1, 1, 1, 1, 1, 1]⟩
      (Stack.new (EventListener 1) 2) =
      some (⟨[some ⟨1, ⟨101, [1, 1, 1, 1, 1, 1, 1, 1]⟩, ⟨1, 1⟩⟩, none], 1⟩, none) ∧
    EventLoop.listen 1 2 ⟨0, 1⟩ ⟨⟨100, 8⟩, [2, 2, 2, 2, 2, 2, 2, 2]⟩
      ⟨[some ⟨1, ⟨101, [1, 1, 1, 1, 1, 1, 1, 1]⟩, ⟨1, 1⟩⟩, none], 1⟩ =
      some (⟨[some ⟨1, ⟨101, [1, 1, 1, 1, 1, 1, 1, 1]⟩, ⟨1, 1⟩⟩,
        some ⟨0, ⟨100, [2, 2, 2, 2, 2, 2, 2, 2]⟩, ⟨0, 1⟩⟩], 2⟩, none) ∧
    EventLoop.send 1 1 (RingBuf.new (SBox 1) 1) ⟨⟨0, 1⟩, [7]⟩ =
      some (⟨[some ⟨0, [7], some ⟨0, 1⟩⟩], 0, 0⟩, none) ∧
    EventLoop.enterStep ⟨fun t => ⟨100 + t.tag, 8⟩, fun _ _ => none⟩ 1 1 2
      ⟨[some ⟨0, [7], some ⟨0, 1⟩⟩], 0, 0⟩
      ⟨[some ⟨1, ⟨101, [1, 1, 1, 1, 1, 1, 1, 1]⟩, ⟨1, 1⟩⟩,
        some ⟨0, ⟨100, [2, 2, 2, 2, 2, 2, 2, 2]⟩, ⟨0, 1⟩⟩], 2⟩ =
      some (RingBuf.new (SBox 1) 1, []) :=
  ⟨rfl, rfl, rfl, rfl⟩
